import Mathlib

/-!
Verification of the clause-segmentation / matching / judgment pipeline of
streamlit_app.py (条款式政策比对分析工具).

Shallow embedding conventions:
* Python strings are modelled as `List Char` (`Str`); `lc` converts a Lean
  string literal to this representation.
* Python `re` operations are modelled by direct scanning functions that
  implement the semantics of the six concrete clause patterns used by
  `split_into_clauses`, of the `\s+` / strip / split operations used by
  `parse_pdf_by_clauses`, and of the label-extraction searches.  Python's
  `\s` (Unicode whitespace for str patterns) is `isPySpace`; `\d` is
  modelled as the ASCII digits (all texts involved use ASCII digits).
* Python dicts (insertion ordered, value overwritten in place on key reuse)
  are modelled as association lists with `dictInsert` / `dictGet`.
* The similarity scorer `chinese_text_similarity` (jieba + SequenceMatcher,
  an external library computation) is an abstract parameter
  `sim : Str → Str → ℚ`; floats are modelled as rationals.
* The Qwen API collaborator is an abstract oracle
  `api : Str → Option Str`: `call_qwen_api` returns the completion text or
  `None` on any failure (timeout / bad status / malformed response), which
  is exactly `Option`.
-/

abbrev Str := List Char

def lc (s : String) : Str := s.data

/-- Python str-pattern whitespace (`\s`, also `str.strip()` whitespace). -/
def isPySpace (c : Char) : Bool :=
  decide (c = ' ' ∨ c = '\t' ∨ c = '\n' ∨ c = '\r' ∨ c = '\x0b' ∨ c = '\x0c' ∨
    (0x1c ≤ c.toNat ∧ c.toNat ≤ 0x1f) ∨ c.toNat = 0x85 ∨ c.toNat = 0xa0 ∨
    c.toNat = 0x1680 ∨ (0x2000 ≤ c.toNat ∧ c.toNat ≤ 0x200a) ∨
    c.toNat = 0x2028 ∨ c.toNat = 0x2029 ∨ c.toNat = 0x202f ∨
    c.toNat = 0x205f ∨ c.toNat = 0x3000)

/-- The control characters removed by line 248 of the source:
`re.sub(r'[\x00-\x08\x0b\x0c\x0e-\x1f\x7f]', '', full_text)`. -/
def isRemovedCtrl (c : Char) : Bool :=
  decide (c.toNat ≤ 0x08 ∨ c.toNat = 0x0b ∨ c.toNat = 0x0c ∨
    (0x0e ≤ c.toNat ∧ c.toNat ≤ 0x1f) ∨ c.toNat = 0x7f)

/-- Python `s.strip()`. -/
def pyStrip (l : Str) : Str :=
  ((l.dropWhile isPySpace).reverse.dropWhile isPySpace).reverse

/-- `re.sub(r'\s+', ' ', s)`: every maximal run of whitespace becomes a
single ASCII space. -/
def collapseWs : Str → Str
  | [] => []
  | [c] => if isPySpace c then [' '] else [c]
  | c :: d :: cs =>
      if isPySpace c then
        if isPySpace d then collapseWs (d :: cs)
        else ' ' :: collapseWs (d :: cs)
      else c :: collapseWs (d :: cs)

/-- Lines 248–249 of the source (the text preprocessing inside
`parse_pdf_by_clauses`): remove control characters, collapse whitespace,
strip.  This is the whole of what the program does by way of
text normalization. -/
def normalizeText (l : Str) : Str :=
  pyStrip (collapseWs (l.filter (fun c => !(isRemovedCtrl c))))

/-! ## Clause segmentation (`split_into_clauses`, lines 206–227)

The six regex patterns all have the shape
`(MARKER\s+.*?)(?=MARKER\s+|$)` with `re.DOTALL`.  `re.findall` on such a
pattern scans left to right; a match starts at the first position where
`MARKER\s+` matches (with `\s+` greedy), and the lazy `.*?` extends the
match to the first subsequent position where the lookahead holds, i.e.
where `MARKER\s+` matches again or the string ends (`$` also matches just
before a terminal newline).  Since `$` always holds at the end, the greedy
`\s+` never needs to backtrack.  `scanChunks` implements exactly this scan,
keeping the skipped (unmatched) chunks so the coverage property can be
stated. -/

inductive Pat
  | diTiao   -- 第X条
  | dun      -- X、
  | numDot   -- 1. 2. 3.
  | parenCn  -- (一) (二)
  | parenNum -- (1) (2)
  | bracket  -- 【标题】
deriving DecidableEq

def isCnum10 (c : Char) : Bool :=
  decide (c = '一' ∨ c = '二' ∨ c = '三' ∨ c = '四' ∨ c = '五' ∨ c = '六' ∨
    c = '七' ∨ c = '八' ∨ c = '九' ∨ c = '十')

def isCnumBai (c : Char) : Bool := isCnum10 c || decide (c = '百')

def isAsciiDigit (c : Char) : Bool := decide ('0' ≤ c ∧ c ≤ '9')

def isDigit19 (c : Char) : Bool := decide ('1' ≤ c ∧ c ≤ '9')

/-- Length of the marker token of pattern `p` matching at the front of `s`,
if any.  The character classes inside the markers never contain the closing
character, so the greedy `+` needs no backtracking. -/
def markerLen : Pat → Str → Option Nat
  | .diTiao, '第' :: cs =>
      let k := (cs.takeWhile isCnumBai).length
      if 1 ≤ k ∧ (cs.drop k).head? = some '条' then some (k + 2) else none
  | .diTiao, _ => none
  | .dun, s =>
      let k := (s.takeWhile isCnum10).length
      if 1 ≤ k ∧ (s.drop k).head? = some '、' then some (k + 1) else none
  | .numDot, s =>
      let k := (s.takeWhile isAsciiDigit).length
      if 1 ≤ k ∧ (s.drop k).head? = some '.' then some (k + 1) else none
  | .parenCn, '(' :: cs =>
      let k := (cs.takeWhile isCnum10).length
      if 1 ≤ k ∧ (cs.drop k).head? = some ')' then some (k + 2) else none
  | .parenCn, _ => none
  | .parenNum, '(' :: cs =>
      let k := (cs.takeWhile isDigit19).length
      if 1 ≤ k ∧ (cs.drop k).head? = some ')' then some (k + 2) else none
  | .parenNum, _ => none
  | .bracket, '【' :: cs =>
      let k := (cs.takeWhile (fun c => !(decide (c = '】')))).length
      if 1 ≤ k ∧ (cs.drop k).head? = some '】' then some (k + 2) else none
  | .bracket, _ => none

/-- Length of `MARKER\s+` (greedy) matching at the front of `s`, if any. -/
def markerWsLen (p : Pat) (s : Str) : Option Nat :=
  match markerLen p s with
  | none => none
  | some ml =>
      let w := ((s.drop ml).takeWhile isPySpace).length
      if 1 ≤ w then some (ml + w) else none

/-- First position `i` in `s` where `MARKER\s+` matches, together with the
matched length (the scan of `re.findall` for the next match start). -/
def findFirstStart (p : Pat) : Str → Option (Nat × Nat)
  | [] => none
  | c :: cs =>
      match markerWsLen p (c :: cs) with
      | some m => some (0, m)
      | none => (findFirstStart p cs).map (fun im => (im.1 + 1, im.2))

/-- Offset of the first position in `s` where the lookahead
`(?=MARKER\s+|$)` holds.  `$` holds at the end of the string and just
before a terminal newline, so the result is at most `s.length`. -/
def findBoundary (p : Pat) : Str → Nat
  | [] => 0
  | c :: cs =>
      if (markerWsLen p (c :: cs)).isSome then 0
      else if c = '\n' ∧ cs = [] then 0
      else 1 + findBoundary p cs

/-- The left-to-right scan of `re.findall`: returns the decomposition of
`s` into skipped chunks (`false`) and matches (`true`), in order.  `fuel`
only serves termination; `s.length` suffices because each match consumes at
least one character. -/
def scanChunks (p : Pat) : Nat → Str → List (Bool × Str)
  | 0, s => if s = [] then [] else [(false, s)]
  | fuel + 1, s =>
      match findFirstStart p s with
      | none => if s = [] then [] else [(false, s)]
      | some (i, m) =>
          let rest := s.drop i
          let b := findBoundary p (rest.drop m)
          (false, s.take i) :: (true, rest.take (m + b)) :: scanChunks p fuel (s.drop (i + (m + b)))

/-- `re.findall(pattern, text, re.DOTALL)` for pattern `p`. -/
def findMatches (p : Pat) (s : Str) : List Str :=
  (scanChunks p (s.length + 1) s).filterMap (fun c => if c.1 then some c.2 else none)

/-- `re.split(r'[。；！？]\s*', text)`, first stage: split at each
terminator character (the accumulated chunk of non-terminator characters
before each terminator, plus the last chunk). -/
def isTermin (c : Char) : Bool :=
  decide (c = '。' ∨ c = '；' ∨ c = '！' ∨ c = '？')

def splitTerms : Str → Str → List Str
  | [], acc => [acc.reverse]
  | c :: cs, acc =>
      if isTermin c then acc.reverse :: splitTerms cs []
      else splitTerms cs (c :: acc)

/-- `re.split(r'[。；！？]\s*', text)`: the `\s*` of the separator eats the
whitespace at the front of every fragment after the first. -/
def splitSentences (s : Str) : List Str :=
  match splitTerms s [] with
  | [] => []
  | f :: fs => f :: fs.map (fun g => g.dropWhile isPySpace)

/-- Lines 225–227: the fallback branch of `split_into_clauses`.
`[p.strip() for p in paragraphs if p.strip() and len(p) > 10]`: keep the
strip of every fragment that strips to non-empty and whose raw length
exceeds 10. -/
def fallbackSplit (text : Str) : List Str :=
  (splitSentences text).filterMap
    (fun p => if pyStrip p ≠ [] ∧ 10 < p.length then some (pyStrip p) else none)

/-- The ordered pattern list of `split_into_clauses` (lines 209–217). -/
def clausePats : List Pat :=
  [.diTiao, .dun, .numDot, .parenCn, .parenNum, .bracket]

/-- The `for pattern in patterns` cascade of `split_into_clauses`
(lines 219–222): first pattern with more than 3 matches wins; its matches
are stripped and the empty ones discarded. -/
def splitCascade : List Pat → Str → List Str
  | [], text => fallbackSplit text
  | p :: ps, text =>
      let cl := findMatches p text
      if 3 < cl.length then (cl.map pyStrip).filter (fun c => c ≠ [])
      else splitCascade ps text

def split_into_clauses (text : Str) : List Str :=
  splitCascade clausePats text

/-! ## Label extraction and clause dict (`parse_pdf_by_clauses`, lines 254–293)

`re.search` finds the leftmost position at which the pattern matches; the
character classes never contain their closing delimiter, so the greedy `+`
takes the maximal run and needs no backtracking. -/

/-- `re.search(r'第([一二三四五六七八九十百]+)条', clause)`: group 1. -/
def searchDiTiao : Str → Option Str
  | [] => none
  | '第' :: cs =>
      let run := cs.takeWhile isCnumBai
      if run ≠ [] ∧ (cs.dropWhile isCnumBai).head? = some '条' then some run
      else searchDiTiao cs
  | _ :: cs => searchDiTiao cs

/-- `re.search` for `(RUN+)close` where `RUN` is a character class not
containing `close`: leftmost start position, maximal run. -/
def searchRunClose (isC : Char → Bool) (close : Char) : Str → Option Str
  | [] => none
  | c :: cs =>
      let s := c :: cs
      let run := s.takeWhile isC
      if run ≠ [] ∧ (s.dropWhile isC).head? = some close then some run
      else searchRunClose isC close cs

/-- `re.search` for `op(RUN+)close` (parenthesized and bracketed labels). -/
def searchOpenRun (op : Char) (isC : Char → Bool) (close : Char) : Str → Option Str
  | [] => none
  | c :: cs =>
      if c = op then
        let run := cs.takeWhile isC
        if run ≠ [] ∧ (cs.dropWhile isC).head? = some close then some run
        else searchOpenRun op isC close cs
      else searchOpenRun op isC close cs

/-- The `elif` chain of lines 262–276: the first numbering family found
anywhere in the clause text yields the label. -/
def extractNum (clause : Str) : Option Str :=
  (searchDiTiao clause).orElse (fun _ =>
  (searchRunClose isCnum10 '、' clause).orElse (fun _ =>
  (searchRunClose isAsciiDigit '.' clause).orElse (fun _ =>
  (searchOpenRun '(' isCnum10 ')' clause).orElse (fun _ =>
  (searchOpenRun '(' isDigit19 ')' clause).orElse (fun _ =>
  searchOpenRun '【' (fun c => !(decide (c = '】'))) '】' clause)))))

/-- `re.sub(r'^第[一二三四五六七八九十百]+条\s*', '', s)`. -/
def stripPre1 : Str → Str
  | '第' :: cs =>
      let k := (cs.takeWhile isCnumBai).length
      if 1 ≤ k ∧ (cs.drop k).head? = some '条' then ((cs.drop k).drop 1).dropWhile isPySpace
      else '第' :: cs
  | s => s

/-- `re.sub` of an anchored `RUN+close\s*` prefix. -/
def stripRunClose (isC : Char → Bool) (close : Char) (s : Str) : Str :=
  let k := (s.takeWhile isC).length
  if 1 ≤ k ∧ (s.drop k).head? = some close then ((s.drop k).drop 1).dropWhile isPySpace
  else s

/-- `re.sub` of an anchored `op RUN+ close\s*` prefix. -/
def stripOpenRun (op : Char) (isC : Char → Bool) (close : Char) : Str → Str
  | [] => []
  | c :: cs =>
      if c = op then
        let k := (cs.takeWhile isC).length
        if 1 ≤ k ∧ (cs.drop k).head? = some close then ((cs.drop k).drop 1).dropWhile isPySpace
        else c :: cs
      else c :: cs

/-- Lines 278–283: the six prefix-stripping substitutions, applied in
sequence to the clause text (only when a label was extracted). -/
def stripNumPre (s : Str) : Str :=
  stripOpenRun '【' (fun c => !(decide (c = '】'))) '】'
    (stripOpenRun '(' isDigit19 ')'
      (stripOpenRun '(' isCnum10 ')'
        (stripRunClose isAsciiDigit '.'
          (stripRunClose isCnum10 '、' (stripPre1 s)))))

/-- Python dict assignment `d[k] = v`: insertion ordered, and an existing
key keeps its position while its value is replaced. -/
def dictInsert {α : Type} (k : Str) (v : α) : List (Str × α) → List (Str × α)
  | [] => [(k, v)]
  | (k₁, v₁) :: rest => if k₁ = k then (k, v) :: rest else (k₁, v₁) :: dictInsert k v rest

/-- Python dict lookup `d.get(k)` / `k in d`. -/
def dictGet {α : Type} (d : List (Str × α)) (k : Str) : Option α :=
  (d.find? (fun kv => decide (kv.1 = k))).map Prod.snd

/-- The 解析精度 setting (parse precision): minimum body length. -/
inductive Precision
  | loose   -- 宽松, > 20
  | medium  -- 中等, > 30
  | strict  -- 严格, > 50
deriving DecidableEq

def minLen : Precision → Nat
  | .strict => 50
  | .medium => 30
  | .loose => 20

/-- Lines 256–285: label and body of the clause at (1-based) position `i`:
the extracted numbering token, with all numbering prefixes stripped from
the body, or the ordinal as a decimal string with the body untouched. -/
def labelContent (i : Nat) (clause : Str) : Str × Str :=
  match extractNum clause with
  | some g => (g, stripNumPre clause)
  | none => (lc (Nat.repr i), clause)

/-- The clause-derivation pipeline of `parse_pdf_by_clauses`
(lines 247–293), taking the extracted full text: normalize, segment,
label, filter by the precision threshold, and collect into the clause
dict. -/
def parseClauses (fullText : Str) (prec : Precision) : List (Str × Str) :=
  let t := normalizeText fullText
  (split_into_clauses t).enum.foldl
    (fun d ic =>
      let p := labelContent (ic.1 + 1) ic.2
      if minLen prec < p.2.length then dictInsert p.1 (pyStrip p.2) d else d)
    []

/-! ## Clause matching (`analyze_clause_matches`, lines 346–388)

Phase A (lines 353–354): clause numbers present in both dicts, in
benchmark order.  Phase B (lines 356–388) runs only when Phase A found
nothing: a greedy scan assigning each benchmark clause the best unconsumed
candidate whose similarity strictly exceeds 0.3.  The similarity scorer is
the abstract parameter `sim`. -/

/-- Line 353: `[num for num in target_clauses if num in compare_clauses]`. -/
def phaseA (target compare : List (Str × Str)) : List Str :=
  (target.map Prod.fst).filter (fun n => (dictGet compare n).isSome)

/-- The inner `for j, (c_num, c_content) in enumerate(compare_list)` loop
(lines 370–376): `j` is the index of the head of `cs` in the full candidate
list, `used` the consumed indices, `br`/`bj` the running best ratio
(initially the 0.3 threshold) and best index. -/
def innerScan (sim : Str → Str → ℚ) (t : Str) :
    List (Str × Str) → Nat → List Nat → ℚ → Option Nat → ℚ × Option Nat
  | [], _, _, br, bj => (br, bj)
  | c :: cs, j, used, br, bj =>
      if j ∉ used ∧ br < sim t c.2 then
        innerScan sim t cs (j + 1) used (sim t c.2) (some j)
      else
        innerScan sim t cs (j + 1) used br bj

/-- The outer `for i, (t_num, t_content) in enumerate(target_list)` loop
(lines 365–380): greedy assignment in benchmark order; a successful scan
appends `(t_num, best_j, best_ratio)` and consumes `best_j`. -/
def greedyLoop (sim : Str → Str → ℚ) (compare : List (Str × Str)) :
    List (Str × Str) → List Nat → List (Str × Nat × ℚ)
  | [], _ => []
  | t :: ts, used =>
      match (innerScan sim t.2 compare 0 used (3/10) none).2 with
      | some j =>
          (t.1, j, (innerScan sim t.2 compare 0 used (3/10) none).1) ::
            greedyLoop sim compare ts (j :: used)
      | none => greedyLoop sim compare ts used

/-- The matched (benchmark number, candidate number) pairs produced by
`analyze_clause_matches` before judging: Phase A pairs clauses with equal
numbers; only if Phase A is empty is the similarity fallback used
(`best_match = (c_num, c_content)` is `compare[best_j]`). -/
def matchedPairs (sim : Str → Str → ℚ) (target compare : List (Str × Str)) :
    List (Str × Str) :=
  let a := phaseA target compare
  if a ≠ [] then a.map (fun n => (n, n))
  else (greedyLoop sim compare target []).map
    (fun tjr => (tjr.1, (compare.getD tjr.2.1 ([], [])).1))

/-! ## Judgment loop and result assembly (lines 390–479) -/

/-- The per-pair analysis record built at lines 429–445. -/
structure JudgeEntry where
  target_num : Str
  compare_num : Str
  target : Str
  compare : Str
  analysis : Str
  compliant : Bool
deriving DecidableEq

/-- The judgment prompt f-string of lines 407–422 (clause bodies truncated
to 300 characters). -/
def buildPrompt (tn cn tc cc : Str) : Str :=
  lc "\n            请仔细分析以下两个中文条款的合规性：\n            \n            目标条款（第" ++
  tn ++ lc "条）：\n            " ++ tc.take 300 ++
  lc "\n            \n            待比对条款（第" ++ cn ++ lc "条）：\n            " ++
  cc.take 300 ++
  lc "\n            \n            分析要求：\n            1. 首先明确判断待比对条款是否符合目标条款要求（用\"合规\"或\"不合规\"开头）\n            2. 指出两者的主要差异点（如无差异则说明一致）\n            3. 分析差异可能带来的影响\n            4. 注意中文法律/合同条款中常用表述的细微差别，如\"应当\"与\"必须\"、\"不得\"与\"禁止\"等\n            5. 用简洁的中文（不超过300字）输出分析结果\n            "

/-- Line 428: `result.strip().startswith("合规")`. -/
def verdictCompliant (result : Str) : Bool :=
  (lc "合规").isPrefixOf (pyStrip result)

/-- The judgment loop of lines 396–448 over the matched pairs, with the
list of prompts actually sent to the collaborator recorded in call order.
A `none` from the collaborator (any `call_qwen_api` failure) records the
pair in neither dict; a successful result is filed under its verdict.  The
clause contents are the dict entries (`target_clauses[t_num]`,
`compare_clauses[c_num]`; both keys always exist for matched pairs). -/
def judgeLoopT (api : Str → Option Str) (target compare : List (Str × Str)) :
    List (Str × Str) → List (Str × JudgeEntry) → List (Str × JudgeEntry) →
    List Str × List (Str × JudgeEntry) × List (Str × JudgeEntry)
  | [], comp, noncomp => ([], comp, noncomp)
  | (tn, cn) :: rest, comp, noncomp =>
      let tc := (dictGet target tn).getD []
      let cc := (dictGet compare cn).getD []
      let prompt := buildPrompt tn cn tc cc
      match api prompt with
      | none =>
          let r := judgeLoopT api target compare rest comp noncomp
          (prompt :: r.1, r.2)
      | some result =>
          let e : JudgeEntry := ⟨tn, cn, tc, cc, result, verdictCompliant result⟩
          if verdictCompliant result then
            let r := judgeLoopT api target compare rest (dictInsert tn e comp) noncomp
            (prompt :: r.1, r.2)
          else
            let r := judgeLoopT api target compare rest comp (dictInsert tn e noncomp)
            (prompt :: r.1, r.2)

/-- JSON string escaping as in `json.dumps` with `ensure_ascii=False`
(the characters appearing in the texts under analysis need only the
basic escapes). -/
def jsonEscape : Str → Str
  | [] => []
  | c :: cs =>
      (if c = '"' then ['\\', '"']
       else if c = '\\' then ['\\', '\\']
       else if c = '\n' then ['\\', 'n']
       else if c = '\r' then ['\\', 'r']
       else if c = '\t' then ['\\', 't']
       else [c]) ++ jsonEscape cs

def jsonStr (s : Str) : Str := '"' :: jsonEscape s ++ ['"']

/-- `json.dumps(entry_dict, ensure_ascii=False, indent=2)` for one analysis
record (fields in insertion order, nested at indent level 2). -/
def jsonEntry (e : JudgeEntry) : Str :=
  lc "\x7b\n    \"target_num\": " ++ jsonStr e.target_num ++
  lc ",\n    \"compare_num\": " ++ jsonStr e.compare_num ++
  lc ",\n    \"target\": " ++ jsonStr e.target ++
  lc ",\n    \"compare\": " ++ jsonStr e.compare ++
  lc ",\n    \"analysis\": " ++ jsonStr e.analysis ++
  lc ",\n    \"compliant\": " ++ (if e.compliant then lc "true" else lc "false") ++
  lc "\n  \x7d"

/-- `json.dumps(final_compliant, ensure_ascii=False, indent=2)`. -/
def jsonDumps (d : List (Str × JudgeEntry)) : Str :=
  match d.map (fun kv => jsonStr kv.1 ++ lc ": " ++ jsonEntry kv.2) with
  | [] => lc "\x7b\x7d"
  | e :: es =>
      lc "\x7b\n  " ++ es.foldl (fun acc f => acc ++ lc ",\n  " ++ f) e ++ lc "\n\x7d"

/-- The summary prompt f-string of lines 463–475. -/
def buildSummaryPrompt (final : List (Str × JudgeEntry)) (totalMatched compLen : Nat) : Str :=
  lc "\n    以下是目标政策文件与待比对文件中合规条款的分析结果：\n    " ++
  jsonDumps final ++
  lc "\n    \n    额外信息：\n    - 总匹配条款数：" ++ lc (Nat.repr totalMatched) ++
  lc " 条\n    - 合规条款数：" ++ lc (Nat.repr compLen) ++
  lc " 条\n    \n    请基于以上分析，用简洁的中文（不超过300字）总结：\n    1. 总体合规性情况\n    2. 主要差异点汇总\n    3. 简要的合规建议\n    "

/-- `analyze_clause_matches` (lines 346–479), instrumented with the list of
collaborator prompts sent, in call order.  Returns
`(trace, final_compliant, summary, total_compliant, total_matched)`;
`none` models the `None, None, 0, 0` early return for missing input. -/
def analyzeT (sim : Str → Str → ℚ) (api : Str → Option Str)
    (target compare : List (Str × Str)) :
    Option (List Str × List (Str × JudgeEntry) × Str × Nat × Nat) :=
  if target = [] ∨ compare = [] then none
  else
    let pairs := matchedPairs sim target compare
    if pairs = [] then
      some ([], [], lc "未找到匹配的条款，无法进行合规性分析。", 0, 0)
    else
      let r := judgeLoopT api target compare pairs [] []
      let finalCompliant := r.2.1.take 50
      let sPrompt := buildSummaryPrompt finalCompliant pairs.length r.2.1.length
      let summary := (api sPrompt).getD (lc "无法生成总结，请检查API配置。")
      some (r.1 ++ [sPrompt], finalCompliant, summary, r.2.1.length, pairs.length)

/-! ## Report assembly (`generate_word_document`, lines 482–533)

The Word document is modelled as its ordered content items.  The analysis
date (`time.strftime`) is an external input, passed as `date`. -/

inductive DocItem
  | heading (text : Str) (level : Nat)
  | para (text : Str)
  | paraH3 (text : Str)   -- a paragraph with style 'Heading 3'
deriving DecidableEq

/-- `re.split(r'\n+', s)` followed by the strip-and-keep-nonempty loop of
lines 502–504 / 522–524.  Splitting at every single newline differs from
splitting at newline runs only by empty fragments, which the filter
removes. -/
def splitParas (s : Str) : List Str :=
  (splitNL s []).filterMap (fun p => if pyStrip p ≠ [] then some (pyStrip p) else none)
where
  splitNL : Str → Str → List Str
    | [], acc => [acc.reverse]
    | c :: cs, acc =>
        if c = '\n' then acc.reverse :: splitNL cs [] else splitNL cs (c :: acc)

/-- Lines 509–524: the per-pair section of the report. -/
def pairSection (d : JudgeEntry) : List DocItem :=
  [.heading (lc "目标条款第" ++ d.target_num ++ lc "条 vs 待比对条款第" ++ d.compare_num ++ lc "条") 2,
   .paraH3 (lc "目标条款内容："),
   .para d.target,
   .paraH3 (lc "待比对条款内容："),
   .para d.compare,
   .paraH3 (lc "分析结果：")] ++
  (splitParas d.analysis).map .para

/-- `generate_word_document` (lines 482–529): header metadata, summary
section, then one section per entry of `matched_results`, in dict order. -/
def generate_word_document (matchedResults : List (Str × JudgeEntry))
    (summary targetFilename compareFilename : Str)
    (totalCompliant totalMatched : Nat) (date : Str) : List DocItem :=
  [.heading (lc "政策文件条款比对分析报告") 0,
   .para (lc "目标政策文件: " ++ targetFilename),
   .para (lc "待比对文件: " ++ compareFilename),
   .para (lc "分析日期: " ++ date),
   .para (lc "总匹配条款数: " ++ lc (Nat.repr totalMatched)),
   .para (lc "合规条款数: " ++ lc (Nat.repr totalCompliant)),
   .para (lc "本次报告分析条款数: " ++ lc (Nat.repr matchedResults.length)),
   .para [],
   .heading (lc "一、总体总结") 1] ++
  (splitParas summary).map .para ++
  [.heading (lc "二、合规条款详细分析") 1] ++
  (matchedResults.map (fun kv => pairSection kv.2)).flatten

/-! ## Specification-side definitions

These follow the wording of the specification and the claims; the theorems
below relate them to the source functions above. -/

/-- The acceptance cascade as the spec words it: the first pattern whose
acceptance predicate (more than 3 matches) holds. -/
def acceptedPat (text : Str) : Option Pat :=
  clausePats.find? (fun p => decide (3 < (findMatches p text).length))

/-- Erase all whitespace (for the "modulo whitespace" comparisons of the
coverage claim). -/
def removeWs (l : Str) : Str := l.filter (fun c => !(isPySpace c))

/-- No two consecutive whitespace characters. -/
def noTwoSpaces (l : Str) : Prop :=
  List.Chain' (fun a b => isPySpace a = false ∨ isPySpace b = false) l

/-- Everything the segmenter ever looked at, in order: on the pattern path,
the concatenation of all emitted matches and all skipped chunks; on the
fallback path, the concatenation of all sentence fragments (kept and
discarded).  This is the "clause bodies plus discarded inter-marker text"
of the coverage claim. -/
def segRecovered (text : Str) : Str :=
  match acceptedPat text with
  | some p => ((scanChunks p (text.length + 1) text).map Prod.snd).flatten
  | none => (splitTerms text []).flatten

/-- The greedy-assignment specification of the similarity fallback, worded
from the spec and claim C1: benchmark clauses are processed in original
order; a step either assigns an unconsumed candidate index whose score
strictly exceeds the 0.3 threshold, is at least the score of every other
unconsumed candidate, and strictly exceeds the score of every earlier
unconsumed candidate (earliest-position tie-break), consuming it; or
assigns nothing because no unconsumed candidate scores above the
threshold. -/
inductive GoodAssign (sim : Str → Str → ℚ) (compare : List (Str × Str)) :
    List (Str × Str) → List Nat → List (Str × Nat × ℚ) → Prop where
  | nil : ∀ used, GoodAssign sim compare [] used []
  | matched : ∀ t ts used j r res,
      j < compare.length →
      j ∉ used →
      r = sim t.2 (compare.getD j ([], [])).2 →
      3/10 < r →
      (∀ k, k < compare.length → k ∉ used → sim t.2 (compare.getD k ([], [])).2 ≤ r) →
      (∀ k, k < j → k ∉ used → sim t.2 (compare.getD k ([], [])).2 < r) →
      GoodAssign sim compare ts (j :: used) res →
      GoodAssign sim compare (t :: ts) used ((t.1, j, r) :: res)
  | unmatched : ∀ t ts used res,
      (∀ k, k < compare.length → k ∉ used → sim t.2 (compare.getD k ([], [])).2 ≤ 3/10) →
      GoodAssign sim compare ts used res →
      GoodAssign sim compare (t :: ts) used res

/-! ## Concrete inputs used by the theorems -/

/-- End-to-end scenario 1 of the spec. -/
def scenario1 : Str := lc "第一条 甲方应于15日内付款。第二条 乙方应交付货物。"

/-- A text whose only numbering marker is a cross-reference (见第三条)
inside a fallback fragment. -/
def crossRefText : Str :=
  lc "本项目所有事项均须按照有关要求见第三条执行并由双方另行协商确定具体实施办法和细节安排。"

/-- A `1. … 2. …` text with a duplicated label `1.`, every body above the
medium length threshold. -/
def dupText : Str :=
  lc "1. aaaaaaaaaaaaaaaaaaaaaaaaaaaaaaaaaaa 2. bbbbbbbbbbbbbbbbbbbbbbbbbbbbbbbbbbb 3. ccccccccccccccccccccccccccccccccccc 4. ddddddddddddddddddddddddddddddddddd 1. eeeeeeeeeeeeeeeeeeeeeeeeeeeeeeeeeee"

/-- Two plain sentences, driving the segmenter to the fallback splitter. -/
def twoSentText : Str := lc "甲方应当按照合同约定支付价款。乙方应当按期交付全部货物。"

/-- The prompt sent for one matched pair (clause contents looked up in the
two dicts, as at lines 403–404). -/
def judgePrompt (target compare : List (Str × Str)) (p : Str × Str) : Str :=
  buildPrompt p.1 p.2 ((dictGet target p.1).getD []) ((dictGet compare p.2).getD [])

/-- The outcome of judging one matched pair, filed under the requested
verdict: `none` when the collaborator fails or the verdict is the other
one. -/
def judgedAs (api : Str → Option Str) (target compare : List (Str × Str))
    (wantCompliant : Bool) (p : Str × Str) : Option (Str × JudgeEntry) :=
  match api (judgePrompt target compare p) with
  | none => none
  | some r =>
      if verdictCompliant r = wantCompliant then
        some (p.1, ⟨p.1, p.2, (dictGet target p.1).getD [], (dictGet compare p.2).getD [],
          r, verdictCompliant r⟩)
      else none

/-- A stand-in similarity scorer for the concrete counterexamples: 1 for
identical texts, 0 otherwise (the real scorer also gives identical texts
the maximal ratio 1). -/
def simIndicator : Str → Str → ℚ := fun a b => if a = b then 1 else 0

/-- C1 input: benchmark dict whose clause 1 shares its number with a
candidate but whose clause 2 does not — while an identical-bodied
candidate (number 3) exists. -/
def t1ex : List (Str × Str) := [(lc "1", lc "甲方付款条款内容"), (lc "2", lc "乙方交货条款内容")]

def c1ex : List (Str × Str) := [(lc "1", lc "甲方付款修订内容"), (lc "3", lc "乙方交货条款内容")]

/-- C2 input: one label-matched pair. -/
def tC2 : List (Str × Str) := [(lc "1", lc "目标条款正文内容")]

def cC2 : List (Str × Str) := [(lc "1", lc "对比条款正文内容")]

/-- C3 input: 51 clauses with labels 0–50, shared by benchmark and
comparison so that Phase A matches all 51. -/
def big51 : List (Str × Str) :=
  (List.range 51).map (fun i => (lc (Nat.repr i), lc "条款内容样例"))

/-- C8 inputs: two label-matched pairs. -/
def tC8 : List (Str × Str) := [(lc "1", lc "甲方条款目标内容"), (lc "2", lc "乙方条款目标内容")]

def cC8 : List (Str × Str) := [(lc "1", lc "甲方条款对比内容"), (lc "2", lc "乙方条款对比内容")]

def p1C8 : Str := judgePrompt tC8 cC8 (lc "1", lc "1")

def p2C8 : Str := judgePrompt tC8 cC8 (lc "2", lc "2")

/-- Collaborator oracle: pair 1 judged compliant, pair 2 judged
non-compliant, summary call fails. -/
def api1C8 : Str → Option Str := fun p =>
  if p = p1C8 then some (lc "合规：基本一致")
  else if p = p2C8 then some (lc "不合规：存在差异") else none

/-- Collaborator oracle: pair 1 judged compliant, pair 2's call fails,
summary call fails. -/
def api2C8 : Str → Option Str := fun p =>
  if p = p1C8 then some (lc "合规：基本一致") else none

/-- A full run followed by report generation, as the caller at
lines 599–613 and 687–695 wires them together. -/
def runReport (api : Str → Option Str) : Option (List DocItem) :=
  (analyzeT simIndicator api tC8 cC8).map
    (fun r => generate_word_document r.2.1 r.2.2.1 (lc "目标.pdf") (lc "对比.pdf")
      r.2.2.2.1 r.2.2.2.2 (lc "2026年10月12日"))

/-- Selector for the per-pair section headings of the report. -/
def isH2 : DocItem → Bool
  | .heading _ 2 => true
  | _ => false

/-- The section heading generated for one judged pair. -/
def secHeading (e : JudgeEntry) : DocItem :=
  .heading (lc "目标条款第" ++ e.target_num ++ lc "条 vs 待比对条款第" ++ e.compare_num ++ lc "条") 2

/-- C5: the spec expects scenario 1 to yield two clauses labeled 一 and 二
with bodies 甲方应于15日内付款。 and 乙方应交付货物。 — but the program
yields no clauses at all, at every precision: the 第X条 pattern finds only
2 matches (not more than 3), the fallback splitter consumes the sentence
terminators, and both resulting bodies (10 and 7 characters) fall below
even the loosest minimum-length threshold (more than 20). -/
theorem C5_counterexample :
    parseClauses scenario1 .loose = [] ∧
    parseClauses scenario1 .medium = [] ∧
    parseClauses scenario1 .strict = [] := by decide

/-- C5 amended: on scenario 1 the fallback splitter produces the two
fragments with the 。 terminators stripped; the labels 一 and 二 and the
bodies 甲方应于15日内付款 / 乙方应交付货物 are extracted from them; both
bodies are then dropped by the minimum-length filter, so segmentation
yields zero clauses at every precision. -/
theorem C5_amended :
    split_into_clauses (normalizeText scenario1) =
      [lc "第一条 甲方应于15日内付款", lc "第二条 乙方应交付货物"] ∧
    labelContent 1 (lc "第一条 甲方应于15日内付款") = (lc "一", lc "甲方应于15日内付款") ∧
    labelContent 2 (lc "第二条 乙方应交付货物") = (lc "二", lc "乙方应交付货物") ∧
    parseClauses scenario1 .loose = [] ∧
    parseClauses scenario1 .medium = [] ∧
    parseClauses scenario1 .strict = [] := by decide

/-- C4 counterexample: on a text where no pattern is accepted, the fallback
fragment is NOT labeled by its ordinal position ("1"): it contains the
cross-reference 见第三条, and the label extraction of
`parse_pdf_by_clauses` searches anywhere in the fragment, so the clause is
labeled "三". -/
theorem C4_counterexample :
    acceptedPat (normalizeText crossRefText) = none ∧
    (parseClauses crossRefText .medium).map Prod.fst = [lc "三"] ∧
    lc "三" ≠ lc "1" := by decide

/-- C1 counterexample: with benchmark clause "1" label-matched, Phase A is
non-empty, so the similarity fallback never runs: benchmark clause "2"
stays unmatched even though candidate "3" has an identical body (similarity
1, far above the 0.3 threshold).  The claim that every benchmark clause
left unmatched by Phase A goes through the similarity fallback is false. -/
theorem C1_counterexample :
    matchedPairs simIndicator t1ex c1ex = [(lc "1", lc "1")] ∧
    simIndicator (lc "乙方交货条款内容") (lc "乙方交货条款内容") = 1 ∧
    (¬ ∃ p ∈ matchedPairs simIndicator t1ex c1ex, p.1 = lc "2") := by decide

/-- C2 counterexample: one matched pair whose collaborator call fails.  The
run makes 2 calls (the pair and the summary), still reports
total_matched = 1, but the final result contains 0 entries — not 1 entry
with an unknown verdict: the failed pair is silently dropped. -/
theorem C2_counterexample :
    (analyzeT simIndicator (fun _ => none) tC2 cC2).map
      (fun r => (r.1.length, r.2.1.length, r.2.2.2.1, r.2.2.2.2)) =
    some (2, 0, 0, 1) := by decide

/-- C9 counterexample: the program's normalization (control-character
removal, whitespace collapse, strip) does not convert full-width
punctuation: both ， and 。 survive unchanged, so the output can contain
full-width variants of the allegedly mapped set. -/
theorem C9_counterexample :
    normalizeText (lc "政策，条款。") = lc "政策，条款。" ∧
    '，' ∈ normalizeText (lc "政策，条款。") := by decide

/-- C7 counterexample: on the fallback path the sentence terminators
consumed by `re.split(r'[。；！？]\s*', ...)` are lost: even the
concatenation of ALL fragments (kept clause bodies and discarded ones)
differs from the input by the two missing 。 characters, which are not
whitespace. -/
theorem C7_counterexample :
    removeWs (segRecovered twoSentText) ≠ removeWs twoSentText := by decide

/-- C3 counterexample: with 51 label-matched pairs and a collaborator that
always answers 合规, the run makes 52 collaborator invocations (51 pair
judgments plus the summary) — there is no cap at 50 — and although all 51
pairs are judged compliant, the returned report holds only the first 50:
the pair labeled "50" is dropped from the report, not "left unjudged but
present". -/
theorem C3_counterexample :
    (analyzeT simIndicator (fun _ => some (lc "合规")) big51 big51).map
      (fun r => (r.1.length, r.2.1.length,
        (r.2.1.map Prod.fst).any (fun k => decide (k = lc "50")),
        r.2.2.2.1, r.2.2.2.2)) =
    some (52, 50, false, 51, 51) := by decide

/-! ## Dictionary lemmas -/

theorem dictInsert_nil {α : Type} (k : Str) (v : α) : dictInsert k v [] = [(k, v)] := rfl

theorem dictInsert_cons {α : Type} (k : Str) (v : α) (k₁ : Str) (v₁ : α)
    (tl : List (Str × α)) :
    dictInsert k v ((k₁, v₁) :: tl) =
      if k₁ = k then (k, v) :: tl else (k₁, v₁) :: dictInsert k v tl := rfl

theorem dictInsert_keys {α : Type} (k : Str) (v : α) (d : List (Str × α)) (x : Str) :
    x ∈ (dictInsert k v d).map Prod.fst ↔ x = k ∨ x ∈ d.map Prod.fst := by
  induction d with
  | nil =>
      rw [dictInsert_nil]
      simp only [List.map_cons, List.map_nil, List.mem_cons, List.not_mem_nil]
  | cons hd tl ih =>
      obtain ⟨k₁, v₁⟩ := hd
      rw [dictInsert_cons]
      by_cases hk : k₁ = k
      · rw [if_pos hk]
        subst hk
        simp only [List.map_cons, List.mem_cons]
        tauto
      · rw [if_neg hk]
        simp only [List.map_cons, List.mem_cons, ih]
        tauto

theorem dictInsert_nodup {α : Type} (k : Str) (v : α) (d : List (Str × α))
    (h : (d.map Prod.fst).Nodup) : ((dictInsert k v d).map Prod.fst).Nodup := by
  induction d with
  | nil =>
      rw [dictInsert_nil]
      simp only [List.map_cons, List.map_nil, List.nodup_cons, List.not_mem_nil,
        not_false_iff, List.nodup_nil, and_self]
  | cons hd tl ih =>
      obtain ⟨k₁, v₁⟩ := hd
      simp only [List.map_cons, List.nodup_cons] at h
      rw [dictInsert_cons]
      by_cases hk : k₁ = k
      · rw [if_pos hk]
        subst hk
        simp only [List.map_cons, List.nodup_cons]
        exact h
      · rw [if_neg hk]
        simp only [List.map_cons, List.nodup_cons]
        refine ⟨fun hmem => ?_, ih h.2⟩
        rcases (dictInsert_keys k v tl k₁).mp hmem with h1 | h1
        · exact hk h1
        · exact h.1 h1

theorem dictInsert_fresh {α : Type} (k : Str) (v : α) (d : List (Str × α))
    (h : k ∉ d.map Prod.fst) : dictInsert k v d = d ++ [(k, v)] := by
  induction d with
  | nil => rw [dictInsert_nil]; rfl
  | cons hd tl ih =>
      obtain ⟨k₁, v₁⟩ := hd
      simp only [List.map_cons, List.mem_cons] at h
      push_neg at h
      rw [dictInsert_cons, if_neg (fun he : k₁ = k => h.1 he.symm)]
      rw [List.cons_append]
      exact congrArg _ (ih h.2)

/-- The clause-dict fold of `parseClauses` preserves key distinctness. -/
theorem parse_fold_nodup (prec : Precision) :
    ∀ (l : List (Nat × Str)) (init : List (Str × Str)), (init.map Prod.fst).Nodup →
      ((l.foldl (fun d ic =>
          let p := labelContent (ic.1 + 1) ic.2
          if minLen prec < p.2.length then dictInsert p.1 (pyStrip p.2) d else d)
        init).map Prod.fst).Nodup := by
  intro l
  induction l with
  | nil => intro init h; simpa using h
  | cons hd tl ih =>
      intro init h
      simp only [List.foldl_cons]
      apply ih
      dsimp only
      split
      · exact dictInsert_nodup _ _ _ h
      · exact h

theorem parseClauses_keys_nodup (text : Str) (prec : Precision) :
    ((parseClauses text prec).map Prod.fst).Nodup := by
  unfold parseClauses
  exact parse_fold_nodup prec _ [] (by simp)

set_option maxRecDepth 8000 in
/-- C10: the per-document clause dict maps each extracted label to exactly
one clause (keys are pairwise distinct for every input and precision), and
on a concrete text whose first and fifth `1.`-clauses share the label "1",
the later body silently replaces the earlier one: the dict binds "1" (at
its original position) to the fifth clause's body, and the first clause's
body is absent from the result. -/
theorem C10_label_unique_overwrite :
    (∀ (text : Str) (prec : Precision), ((parseClauses text prec).map Prod.fst).Nodup) ∧
    parseClauses dupText .medium =
      [(lc "1", lc "eeeeeeeeeeeeeeeeeeeeeeeeeeeeeeeeeee"),
       (lc "2", lc "bbbbbbbbbbbbbbbbbbbbbbbbbbbbbbbbbbb"),
       (lc "3", lc "ccccccccccccccccccccccccccccccccccc"),
       (lc "4", lc "ddddddddddddddddddddddddddddddddddd")] ∧
    dictGet (parseClauses dupText .medium) (lc "1") =
      some (lc "eeeeeeeeeeeeeeeeeeeeeeeeeeeeeeeeeee") ∧
    lc "aaaaaaaaaaaaaaaaaaaaaaaaaaaaaaaaaaa" ∉ (parseClauses dupText .medium).map Prod.snd :=
  ⟨parseClauses_keys_nodup, by decide, by decide, by decide⟩

/-! ## Segmentation lemmas -/

/-- The pattern cascade of `split_into_clauses` is the ordered strategy
list with acceptance predicate "more than 3 matches". -/
theorem splitCascade_spec : ∀ (ps : List Pat) (text : Str),
    (∀ p, ps.find? (fun q => decide (3 < (findMatches q text).length)) = some p →
      splitCascade ps text = ((findMatches p text).map pyStrip).filter (fun c => c ≠ [])) ∧
    (ps.find? (fun q => decide (3 < (findMatches q text).length)) = none →
      splitCascade ps text = fallbackSplit text) := by
  intro ps text
  induction ps with
  | nil =>
      refine ⟨fun p h => ?_, fun _ => rfl⟩
      simp [List.find?] at h
  | cons p0 ps ih =>
      by_cases h0 : 3 < (findMatches p0 text).length
      · refine ⟨fun p hp => ?_, fun hn => ?_⟩
        · rw [List.find?_cons_of_pos ps (by simpa using h0)] at hp
          injection hp with hp
          subst hp
          simp only [splitCascade, if_pos h0]
        · rw [List.find?_cons_of_pos ps (by simpa using h0)] at hn
          cases hn
      · refine ⟨fun p hp => ?_, fun hn => ?_⟩
        · rw [List.find?_cons_of_neg ps (by simpa using h0)] at hp
          rw [show splitCascade (p0 :: ps) text = splitCascade ps text by
            simp only [splitCascade, if_neg h0]]
          exact ih.1 p hp
        · rw [List.find?_cons_of_neg ps (by simpa using h0)] at hn
          rw [show splitCascade (p0 :: ps) text = splitCascade ps text by
            simp only [splitCascade, if_neg h0]]
          exact ih.2 hn

/-- C4 amended: the segmenter tries the six patterns in their fixed
priority order and returns the (stripped, non-empty) matches of the first
pattern accepted by the "more than 3 matches" predicate; if none is
accepted it falls back to sentence-terminator splitting, keeping the
stripped fragments whose raw length exceeds 10.  (The ordinal position is
only the DEFAULT label downstream: any numbering marker found anywhere in a
fallback fragment overrides it, as the counterexample shows.) -/
theorem C4_amended : ∀ text : Str,
    (∀ p, acceptedPat text = some p →
      split_into_clauses text = ((findMatches p text).map pyStrip).filter (fun c => c ≠ [])) ∧
    (acceptedPat text = none → split_into_clauses text = fallbackSplit text) :=
  fun text => splitCascade_spec clausePats text

set_option maxRecDepth 8000 in
/-- C4 witness: on the `1. … 2. …` text the third pattern is the first
accepted one and the segmenter returns its matches; on the cross-reference
text no pattern is accepted and the fallback splitter is used. -/
theorem C4_witness :
    acceptedPat (normalizeText dupText) = some Pat.numDot ∧
    split_into_clauses (normalizeText dupText) =
      ((findMatches Pat.numDot (normalizeText dupText)).map pyStrip).filter (fun c => c ≠ []) ∧
    acceptedPat (normalizeText crossRefText) = none ∧
    split_into_clauses (normalizeText crossRefText) = fallbackSplit (normalizeText crossRefText) :=
  ⟨by decide, (C4_amended (normalizeText dupText)).1 Pat.numDot (by decide),
   by decide, (C4_amended (normalizeText crossRefText)).2 (by decide)⟩

theorem markerWsLen_pos (p : Pat) (s : Str) (m : Nat)
    (h : markerWsLen p s = some m) : 1 ≤ m := by
  unfold markerWsLen at h
  cases hml : markerLen p s with
  | none => rw [hml] at h; cases h
  | some ml =>
      rw [hml] at h
      dsimp only at h
      split at h
      · injection h with h'
        omega
      · cases h

theorem findFirstStart_spec (p : Pat) : ∀ (s : Str) (i m : Nat),
    findFirstStart p s = some (i, m) → markerWsLen p (s.drop i) = some m := by
  intro s
  induction s with
  | nil => intro i m h; cases h
  | cons c cs ih =>
      intro i m h
      unfold findFirstStart at h
      cases hm : markerWsLen p (c :: cs) with
      | some m0 =>
          rw [hm] at h
          injection h with h'
          have h1 : 0 = i := congrArg Prod.fst h'
          have h2 : m0 = m := congrArg Prod.snd h'
          subst h1
          subst h2
          simpa using hm
      | none =>
          rw [hm] at h
          cases hrec : findFirstStart p cs with
          | none => rw [hrec] at h; cases h
          | some im0 =>
              obtain ⟨i0, m0⟩ := im0
              rw [hrec] at h
              simp only [Option.map_some'] at h
              injection h with h'
              have h1 : i0 + 1 = i := congrArg Prod.fst h'
              have h2 : m0 = m := congrArg Prod.snd h'
              subst h1
              subst h2
              rw [List.drop_succ_cons]
              exact ih i0 m0 hrec

/-- The chunks of the `re.findall` scan cover the input exactly. -/
theorem scanChunks_flatten (p : Pat) : ∀ (fuel : Nat) (s : Str), s.length ≤ fuel →
    ((scanChunks p fuel s).map Prod.snd).flatten = s := by
  intro fuel
  induction fuel with
  | zero =>
      intro s h
      have hnil : s = [] := List.eq_nil_of_length_eq_zero (Nat.le_zero.mp h)
      subst hnil
      rfl
  | succ fuel ih =>
      intro s hs
      rw [show scanChunks p (fuel + 1) s =
          (match findFirstStart p s with
           | none => if s = [] then [] else [(false, s)]
           | some (i, m) =>
              (false, s.take i) ::
                (true, (s.drop i).take (m + findBoundary p ((s.drop i).drop m))) ::
                  scanChunks p fuel
                    (s.drop (i + (m + findBoundary p ((s.drop i).drop m))))) from rfl]
      cases hf : findFirstStart p s with
      | none =>
          by_cases hnil : s = []
          · subst hnil; rfl
          · simp [hnil]
      | some im =>
          obtain ⟨i, m⟩ := im
          have hm := findFirstStart_spec p s i m hf
          have hm1 : 1 ≤ m := markerWsLen_pos p _ m hm
          set b := findBoundary p ((s.drop i).drop m) with hb
          have hrec : ((scanChunks p fuel (s.drop (i + (m + b)))).map Prod.snd).flatten =
              s.drop (i + (m + b)) := by
            apply ih
            rw [List.length_drop]
            omega
          simp only [List.map_cons, List.flatten_cons, hrec]
          rw [show List.drop (i + (m + b)) s = List.drop (m + b) (List.drop i s) from
            (List.drop_drop (m + b) i s).symm]
          rw [List.take_append_drop, List.take_append_drop]

/-- The fragments of the terminator split cover the input minus the
terminator characters themselves. -/
theorem splitTerms_flatten : ∀ (s acc : Str),
    (splitTerms s acc).flatten = acc.reverse ++ s.filter (fun c => !(isTermin c)) := by
  intro s
  induction s with
  | nil => intro acc; simp [splitTerms]
  | cons c cs ih =>
      intro acc
      cases hc : isTermin c
      · simp only [splitTerms, hc, Bool.false_eq_true, if_false, ih (c :: acc),
          List.reverse_cons, List.filter_cons, Bool.not_false]
        simp
      · simp only [splitTerms, hc, if_true, List.flatten_cons, ih [], List.reverse_nil,
          List.nil_append, List.filter_cons, Bool.not_true]
        simp

/-- C7 amended: on the pattern path, segmentation coverage holds exactly —
the emitted matches plus the skipped chunks concatenate to the input
string; on the fallback path the kept and discarded fragments concatenate
to the input WITH ALL SENTENCE TERMINATORS (。；！？) REMOVED: the
characters consumed by the splitting pattern are lost, beyond whitespace
and the documented minimum-length filter. -/
theorem C7_amended : ∀ text : Str,
    (∀ p, acceptedPat text = some p → segRecovered text = text) ∧
    (acceptedPat text = none →
      segRecovered text = text.filter (fun c => !(isTermin c))) := by
  intro text
  constructor
  · intro p hp
    simp only [segRecovered, hp]
    exact scanChunks_flatten p (text.length + 1) text (Nat.le_succ _)
  · intro hn
    simp only [segRecovered, hn]
    simpa using splitTerms_flatten text []

set_option maxRecDepth 8000 in
/-- C7 witness: exact coverage on the accepted `1. … 2. …` text; on the
two-sentence fallback text the recovered string is the input minus its
terminators. -/
theorem C7_witness :
    segRecovered (normalizeText dupText) = normalizeText dupText ∧
    segRecovered twoSentText = twoSentText.filter (fun c => !(isTermin c)) :=
  ⟨(C7_amended (normalizeText dupText)).1 Pat.numDot (by decide),
   (C7_amended twoSentText).2 (by decide)⟩

/-! ## Normalization lemmas (claim C9) -/

theorem collapseWs_head_nonspace (d : Char) (cs : Str) (hd : ¬ isPySpace d = true) :
    ∃ tl, collapseWs (d :: cs) = d :: tl := by
  cases cs with
  | nil => exact ⟨[], by simp [collapseWs, hd]⟩
  | cons e es => exact ⟨collapseWs (e :: es), by simp [collapseWs, hd]⟩

/-- The collapsed string never has two adjacent whitespace characters. -/
theorem collapseWs_noTwo (l : Str) : noTwoSpaces (collapseWs l) := by
  induction l using collapseWs.induct with
  | case1 => exact List.chain'_nil
  | case2 c hc =>
      rw [show collapseWs [c] = [' '] by simp [collapseWs, hc]]
      exact List.chain'_singleton ' '
  | case3 c hc =>
      rw [show collapseWs [c] = [c] by simp [collapseWs, hc]]
      exact List.chain'_singleton c
  | case4 c d cs hc hd ih => simpa [collapseWs, hc, hd] using ih
  | case5 c d cs hc hd ih =>
      rw [show collapseWs (c :: d :: cs) = ' ' :: collapseWs (d :: cs) by
        simp [collapseWs, hc, hd]]
      obtain ⟨tl, htl⟩ := collapseWs_head_nonspace d cs hd
      rw [htl] at ih ⊢
      refine List.chain'_cons'.mpr ⟨fun b hb => ?_, ih⟩
      simp only [List.head?_cons, Option.mem_def, Option.some.injEq] at hb
      subst hb
      exact Or.inr (by simpa using hd)
  | case6 c d cs hc ih =>
      rw [show collapseWs (c :: d :: cs) = c :: collapseWs (d :: cs) by
        simp [collapseWs, hc]]
      exact List.chain'_cons'.mpr ⟨fun b _ => Or.inl (by simpa using hc), ih⟩

/-- Every character of the collapsed string is a non-whitespace character
of the input or the single space. -/
theorem collapseWs_mem (l : Str) :
    ∀ c ∈ collapseWs l, (c ∈ l ∧ isPySpace c = false) ∨ c = ' ' := by
  induction l using collapseWs.induct with
  | case1 => intro c hc; cases hc
  | case2 c0 hc0 =>
      intro c hc
      rw [show collapseWs [c0] = [' '] by simp [collapseWs, hc0]] at hc
      exact Or.inr (List.mem_singleton.mp hc)
  | case3 c0 hc0 =>
      intro c hc
      rw [show collapseWs [c0] = [c0] by simp [collapseWs, hc0]] at hc
      have hce := List.mem_singleton.mp hc
      subst hce
      exact Or.inl ⟨List.mem_singleton_self c, by simpa using hc0⟩
  | case4 c0 d cs hc0 hd ih =>
      intro c hc
      rw [show collapseWs (c0 :: d :: cs) = collapseWs (d :: cs) by
        simp [collapseWs, hc0, hd]] at hc
      rcases ih c hc with ⟨hm, hs⟩ | he
      · exact Or.inl ⟨List.mem_cons_of_mem c0 hm, hs⟩
      · exact Or.inr he
  | case5 c0 d cs hc0 hd ih =>
      intro c hc
      rw [show collapseWs (c0 :: d :: cs) = ' ' :: collapseWs (d :: cs) by
        simp [collapseWs, hc0, hd]] at hc
      rcases List.mem_cons.mp hc with he | hm
      · exact Or.inr he
      · rcases ih c hm with ⟨hm2, hs⟩ | he
        · exact Or.inl ⟨List.mem_cons_of_mem c0 hm2, hs⟩
        · exact Or.inr he
  | case6 c0 d cs hc0 ih =>
      intro c hc
      rw [show collapseWs (c0 :: d :: cs) = c0 :: collapseWs (d :: cs) by
        simp [collapseWs, hc0]] at hc
      rcases List.mem_cons.mp hc with he | hm
      · subst he
        exact Or.inl ⟨List.mem_cons_self c (d :: cs), by simpa using hc0⟩
      · rcases ih c hm with ⟨hm2, hs⟩ | he
        · exact Or.inl ⟨List.mem_cons_of_mem c0 hm2, hs⟩
        · exact Or.inr he

/-- Collapsing is the identity on strings with no adjacent whitespace whose
only whitespace is the single space. -/
theorem collapseWs_eq_self (l : Str) (h1 : noTwoSpaces l)
    (h2 : ∀ c ∈ l, isPySpace c = true → c = ' ') : collapseWs l = l := by
  induction l using collapseWs.induct with
  | case1 => rfl
  | case2 c hc =>
      have hce := h2 c (List.mem_singleton_self c) hc
      rw [show collapseWs [c] = [' '] by simp [collapseWs, hc], hce]
  | case3 c hc =>
      rw [show collapseWs [c] = [c] by simp [collapseWs, hc]]
  | case4 c d cs hc hd ih =>
      exfalso
      have hrel := (List.chain'_cons'.mp h1).1 d (by rfl)
      rcases hrel with hno | hno
      · rw [hc] at hno; cases hno
      · rw [hd] at hno; cases hno
  | case5 c d cs hc hd ih =>
      have hceq : c = ' ' := h2 c (List.mem_cons_self c _) hc
      rw [show collapseWs (c :: d :: cs) = ' ' :: collapseWs (d :: cs) by
        simp [collapseWs, hc, hd]]
      rw [ih ((List.chain'_cons'.mp h1).2) (fun x hx hs => h2 x (List.mem_cons_of_mem c hx) hs)]
      rw [hceq]
  | case6 c d cs hc ih =>
      rw [show collapseWs (c :: d :: cs) = c :: collapseWs (d :: cs) by
        simp [collapseWs, hc]]
      rw [ih ((List.chain'_cons'.mp h1).2) (fun x hx hs => h2 x (List.mem_cons_of_mem c hx) hs)]

theorem chain'_of_suffix {R : Char → Char → Prop} {X l : Str} (h : X <:+ l)
    (hc : List.Chain' R l) : List.Chain' R X := by
  obtain ⟨t, ht⟩ := h
  subst ht
  exact (List.chain'_append.mp hc).2.1

theorem suffix_reverse_prefix {X Y : Str} (h : X <:+ Y) : X.reverse <+: Y.reverse := by
  obtain ⟨t, ht⟩ := h
  exact ⟨t.reverse, by rw [← List.reverse_append, ht]⟩

theorem prefix_head {X Y : Str} (h : X <+: Y) (c : Char) (hc : X.head? = some c) :
    Y.head? = some c := by
  obtain ⟨t, ht⟩ := h
  subst ht
  cases X with
  | nil => cases hc
  | cons a as => simpa using hc

theorem pyStrip_subset (l : Str) : ∀ c, c ∈ pyStrip l → c ∈ l := by
  intro c hc
  unfold pyStrip at hc
  rw [List.mem_reverse] at hc
  have h1 := (List.dropWhile_sublist (l := (l.dropWhile isPySpace).reverse)
    (p := isPySpace)).mem hc
  rw [List.mem_reverse] at h1
  exact (List.dropWhile_sublist (l := l) (p := isPySpace)).mem h1

theorem pyStrip_noTwo (l : Str) (h : noTwoSpaces l) : noTwoSpaces (pyStrip l) := by
  unfold pyStrip
  have h1 : noTwoSpaces (l.dropWhile isPySpace) :=
    chain'_of_suffix (List.dropWhile_suffix _) h
  have h2 : noTwoSpaces (l.dropWhile isPySpace).reverse := by
    rw [noTwoSpaces, List.chain'_reverse]
    exact List.Chain'.imp (fun a b hab => Or.symm hab) h1
  have h3 : noTwoSpaces ((l.dropWhile isPySpace).reverse.dropWhile isPySpace) :=
    chain'_of_suffix (List.dropWhile_suffix _) h2
  rw [noTwoSpaces, List.chain'_reverse]
  exact List.Chain'.imp (fun a b hab => Or.symm hab) h3

theorem dropWhile_head_not (p : Char → Bool) : ∀ (l : Str) (c : Char),
    (l.dropWhile p).head? = some c → p c = false := by
  intro l
  induction l with
  | nil => intro c h; cases h
  | cons a as ih =>
      intro c h
      rw [List.dropWhile_cons] at h
      by_cases hp : p a = true
      · rw [if_pos hp] at h
        exact ih c h
      · rw [if_neg hp] at h
        simp only [List.head?_cons, Option.some.injEq] at h
        subst h
        simpa using hp

theorem dropWhile_eq_self_of_head (p : Char → Bool) (l : Str)
    (h : ∀ c, l.head? = some c → p c = false) : l.dropWhile p = l := by
  cases l with
  | nil => rfl
  | cons a as =>
      rw [List.dropWhile_cons, if_neg]
      simp [h a rfl]

theorem pyStrip_idem (l : Str) : pyStrip (pyStrip l) = pyStrip l := by
  unfold pyStrip
  set B := l.dropWhile isPySpace with hB
  set C := B.reverse.dropWhile isPySpace with hC
  have hBhead : ∀ c, B.head? = some c → isPySpace c = false := dropWhile_head_not _ l
  have hpre : C.reverse <+: B := by
    have h1 : C <:+ B.reverse := List.dropWhile_suffix _
    simpa using suffix_reverse_prefix h1
  have hChead : ∀ c, C.reverse.head? = some c → isPySpace c = false :=
    fun c hc => hBhead c (prefix_head hpre c hc)
  rw [dropWhile_eq_self_of_head _ _ hChead, List.reverse_reverse,
    dropWhile_eq_self_of_head _ _ (dropWhile_head_not _ _)]

/-- C9 amended: the program's normalization (strip the listed control
characters, collapse whitespace runs to a single space, trim) is a total,
idempotent function whose output contains no two adjacent whitespace
characters and none of the stripped control characters — but full-width
punctuation is NOT converted to half-width (see the counterexample). -/
theorem C9_amended : ∀ l : Str,
    normalizeText (normalizeText l) = normalizeText l ∧
    noTwoSpaces (normalizeText l) ∧
    (normalizeText l).all (fun c => !(isRemovedCtrl c)) = true := by
  intro l
  have hN : noTwoSpaces (normalizeText l) := pyStrip_noTwo _ (collapseWs_noTwo _)
  have hMem : ∀ c ∈ normalizeText l,
      (c ∈ l.filter (fun c => !(isRemovedCtrl c)) ∧ isPySpace c = false) ∨ c = ' ' :=
    fun c hc => collapseWs_mem _ c (pyStrip_subset _ c hc)
  have hWs : ∀ c ∈ normalizeText l, isPySpace c = true → c = ' ' := by
    intro c hc hw
    rcases hMem c hc with ⟨_, hf⟩ | he
    · rw [hf] at hw; cases hw
    · exact he
  have hCtrl : ∀ c ∈ normalizeText l, isRemovedCtrl c = false := by
    intro c hc
    rcases hMem c hc with ⟨hf, _⟩ | he
    · simpa using List.of_mem_filter hf
    · subst he; rfl
  refine ⟨?_, hN, ?_⟩
  · have hfilter : (normalizeText l).filter (fun c => !(isRemovedCtrl c)) = normalizeText l :=
      List.filter_eq_self.mpr (fun c hc => by simpa using hCtrl c hc)
    calc normalizeText (normalizeText l)
        = pyStrip (collapseWs ((normalizeText l).filter (fun c => !(isRemovedCtrl c)))) := rfl
      _ = pyStrip (collapseWs (normalizeText l)) := by rw [hfilter]
      _ = pyStrip (normalizeText l) := by rw [collapseWs_eq_self _ hN hWs]
      _ = normalizeText l := pyStrip_idem _
  · rw [List.all_eq_true]
    intro c hc
    simpa using hCtrl c hc

/-! ## Matcher lemmas (claims C1 and C6) -/

/-- Complete characterization of the inner candidate scan: either nothing
beats the running best (and every eligible candidate scores at most `br`),
or the scan returns the first eligible index attaining the maximal score
above `br`. -/
theorem innerScan_spec (sim : Str → Str → ℚ) (t : Str) :
    ∀ (cs : List (Str × Str)) (j0 : Nat) (used : List Nat) (br : ℚ) (bj : Option Nat),
    (innerScan sim t cs j0 used br bj = (br, bj) ∧
      ∀ k, k < cs.length → (j0 + k) ∉ used → sim t (cs.getD k ([], [])).2 ≤ br) ∨
    (∃ d r, d < cs.length ∧ (j0 + d) ∉ used ∧ r = sim t (cs.getD d ([], [])).2 ∧ br < r ∧
      innerScan sim t cs j0 used br bj = (r, some (j0 + d)) ∧
      (∀ k, k < cs.length → (j0 + k) ∉ used → sim t (cs.getD k ([], [])).2 ≤ r) ∧
      (∀ k, k < d → (j0 + k) ∉ used → sim t (cs.getD k ([], [])).2 < r)) := by
  intro cs
  induction cs with
  | nil =>
      intro j0 used br bj
      exact Or.inl ⟨rfl, fun k hk => absurd hk (Nat.not_lt_zero k)⟩
  | cons c cs ih =>
      intro j0 used br bj
      rw [show innerScan sim t (c :: cs) j0 used br bj =
          (if j0 ∉ used ∧ br < sim t c.2 then
            innerScan sim t cs (j0 + 1) used (sim t c.2) (some j0)
          else innerScan sim t cs (j0 + 1) used br bj) from rfl]
      by_cases hcond : j0 ∉ used ∧ br < sim t c.2
      · rw [if_pos hcond]
        rcases ih (j0 + 1) used (sim t c.2) (some j0) with
          ⟨heq, hall⟩ | ⟨d, r, hd, hnu, hr, hlt, heq, hall, hearl⟩
        · refine Or.inr ⟨0, sim t c.2, Nat.succ_pos _, by simpa using hcond.1, by simp,
            hcond.2, by simpa using heq, ?_, fun k hk => absurd hk (Nat.not_lt_zero k)⟩
          intro k hk hku
          cases k with
          | zero => simp
          | succ k' =>
              have hku' : (j0 + 1 + k') ∉ used := by
                rw [show j0 + 1 + k' = j0 + (k' + 1) by omega]
                exact hku
              simpa using hall k' (by simpa using hk) hku'
        · refine Or.inr ⟨d + 1, r, by simpa using hd, ?_, by simpa using hr,
            lt_trans hcond.2 hlt, ?_, ?_, ?_⟩
          · rw [show j0 + (d + 1) = j0 + 1 + d by omega]
            exact hnu
          · rw [show j0 + (d + 1) = j0 + 1 + d by omega]
            exact heq
          · intro k hk hku
            cases k with
            | zero => simpa using le_of_lt hlt
            | succ k' =>
                have hku' : (j0 + 1 + k') ∉ used := by
                  rw [show j0 + 1 + k' = j0 + (k' + 1) by omega]
                  exact hku
                simpa using hall k' (by simpa using hk) hku'
          · intro k hk hku
            cases k with
            | zero => simpa using hlt
            | succ k' =>
                have hku' : (j0 + 1 + k') ∉ used := by
                  rw [show j0 + 1 + k' = j0 + (k' + 1) by omega]
                  exact hku
                simpa using hearl k' (by omega) hku'
      · rw [if_neg hcond]
        have hc0 : j0 ∉ used → sim t c.2 ≤ br := by
          intro hju
          by_contra hgt
          exact hcond ⟨hju, lt_of_not_le hgt⟩
        rcases ih (j0 + 1) used br bj with
          ⟨heq, hall⟩ | ⟨d, r, hd, hnu, hr, hlt, heq, hall, hearl⟩
        · refine Or.inl ⟨heq, ?_⟩
          intro k hk hku
          cases k with
          | zero => simpa using hc0 (by simpa using hku)
          | succ k' =>
              have hku' : (j0 + 1 + k') ∉ used := by
                rw [show j0 + 1 + k' = j0 + (k' + 1) by omega]
                exact hku
              simpa using hall k' (by simpa using hk) hku'
        · refine Or.inr ⟨d + 1, r, by simpa using hd, ?_, by simpa using hr, hlt, ?_, ?_, ?_⟩
          · rw [show j0 + (d + 1) = j0 + 1 + d by omega]
            exact hnu
          · rw [show j0 + (d + 1) = j0 + 1 + d by omega]
            exact heq
          · intro k hk hku
            cases k with
            | zero => simpa using le_of_lt (lt_of_le_of_lt (hc0 (by simpa using hku)) hlt)
            | succ k' =>
                have hku' : (j0 + 1 + k') ∉ used := by
                  rw [show j0 + 1 + k' = j0 + (k' + 1) by omega]
                  exact hku
                simpa using hall k' (by simpa using hk) hku'
          · intro k hk hku
            cases k with
            | zero => simpa using lt_of_le_of_lt (hc0 (by simpa using hku)) hlt
            | succ k' =>
                have hku' : (j0 + 1 + k') ∉ used := by
                  rw [show j0 + 1 + k' = j0 + (k' + 1) by omega]
                  exact hku
                simpa using hearl k' (by omega) hku'

/-- The greedy loop of Phase B satisfies the assignment specification. -/
theorem greedyLoop_good (sim : Str → Str → ℚ) (compare : List (Str × Str)) :
    ∀ (ts : List (Str × Str)) (used : List Nat),
    GoodAssign sim compare ts used (greedyLoop sim compare ts used) := by
  intro ts
  induction ts with
  | nil => intro used; exact GoodAssign.nil used
  | cons t ts ih =>
      intro used
      rcases innerScan_spec sim t.2 compare 0 used (3/10) none with
        ⟨heq, hall⟩ | ⟨d, r, hd, hnu, hr, hlt, heq, hall, hearl⟩
      · rw [show greedyLoop sim compare (t :: ts) used = greedyLoop sim compare ts used by
          simp only [greedyLoop, heq]]
        exact GoodAssign.unmatched t ts used _
          (fun k hk hku => by simpa using hall k hk (by simpa using hku)) (ih used)
      · simp only [Nat.zero_add] at hnu heq
        rw [show greedyLoop sim compare (t :: ts) used =
            (t.1, d, r) :: greedyLoop sim compare ts (d :: used) by
          simp only [greedyLoop, heq]]
        exact GoodAssign.matched t ts used d r _ hd hnu hr hlt
          (fun k hk hku => by simpa using hall k hk (by simpa using hku))
          (fun k hk hku => by simpa using hearl k hk (by simpa using hku))
          (ih (d :: used))

/-- C1 amended: the similarity fallback runs ONLY when the label-equality
phase matches nothing at all; in that case the matcher is exactly the
greedy loop, which processes benchmark clauses in original order and gives
each one the highest-scoring unconsumed candidate — only when that score
strictly exceeds the 0.3 threshold, with ties broken by the earliest
candidate position and consumed candidates unavailable to later clauses
(the `GoodAssign` specification).  When Phase A matches at least one
clause, the remaining unmatched benchmark clauses get no fallback at all
(see the counterexample). -/
theorem C1_amended : ∀ (sim : Str → Str → ℚ) (target compare : List (Str × Str)),
    phaseA target compare = [] →
    (matchedPairs sim target compare =
      (greedyLoop sim compare target []).map
        (fun tjr => (tjr.1, (compare.getD tjr.2.1 ([], [])).1)) ∧
     GoodAssign sim compare target [] (greedyLoop sim compare target [])) := by
  intro sim target compare hA
  refine ⟨?_, greedyLoop_good sim compare target []⟩
  simp [matchedPairs, hA]

/-- C1 witness: a run with disjoint clause numbers (Phase A empty), where
the fallback assigns the identical-bodied candidate. -/
theorem C1_witness :
    phaseA [(lc "7", lc "甲方条款内容")] [(lc "8", lc "甲方条款内容")] = [] ∧
    (matchedPairs simIndicator [(lc "7", lc "甲方条款内容")] [(lc "8", lc "甲方条款内容")] =
      (greedyLoop simIndicator [(lc "8", lc "甲方条款内容")] [(lc "7", lc "甲方条款内容")] []).map
        (fun tjr => (tjr.1, ([(lc "8", lc "甲方条款内容")].getD tjr.2.1 ([], [])).1)) ∧
     GoodAssign simIndicator [(lc "8", lc "甲方条款内容")] [(lc "7", lc "甲方条款内容")] []
       (greedyLoop simIndicator [(lc "8", lc "甲方条款内容")] [(lc "7", lc "甲方条款内容")] [])) :=
  ⟨by decide, C1_amended simIndicator [(lc "7", lc "甲方条款内容")]
    [(lc "8", lc "甲方条款内容")] (by decide)⟩

theorem greedyLoop_fst_sublist (sim : Str → Str → ℚ) (compare : List (Str × Str)) :
    ∀ (ts : List (Str × Str)) (used : List Nat),
    List.Sublist ((greedyLoop sim compare ts used).map (fun x => x.1)) (ts.map Prod.fst) := by
  intro ts
  induction ts with
  | nil => intro used; exact List.Sublist.refl []
  | cons t ts ih =>
      intro used
      cases h : (innerScan sim t.2 compare 0 used (3/10) none).2 with
      | none =>
          rw [show greedyLoop sim compare (t :: ts) used = greedyLoop sim compare ts used by
            simp only [greedyLoop, h]]
          exact (ih used).cons t.1
      | some j =>
          rw [show greedyLoop sim compare (t :: ts) used =
              (t.1, j, (innerScan sim t.2 compare 0 used (3/10) none).1) ::
                greedyLoop sim compare ts (j :: used) by
            simp only [greedyLoop, h]]
          exact (ih (j :: used)).cons₂ t.1

theorem greedyLoop_js (sim : Str → Str → ℚ) (compare : List (Str × Str)) :
    ∀ (ts : List (Str × Str)) (used : List Nat),
    (∀ j ∈ (greedyLoop sim compare ts used).map (fun x => x.2.1),
        j ∉ used ∧ j < compare.length) ∧
    ((greedyLoop sim compare ts used).map (fun x => x.2.1)).Nodup := by
  intro ts
  induction ts with
  | nil =>
      intro used
      exact ⟨fun j hj => absurd hj (List.not_mem_nil j), List.nodup_nil⟩
  | cons t ts ih =>
      intro used
      rcases innerScan_spec sim t.2 compare 0 used (3/10) none with
        ⟨heq, _⟩ | ⟨d, r, hd, hnu, _, _, heq, _, _⟩
      · rw [show greedyLoop sim compare (t :: ts) used = greedyLoop sim compare ts used by
          simp only [greedyLoop, heq]]
        exact ih used
      · simp only [Nat.zero_add] at hnu heq
        rw [show greedyLoop sim compare (t :: ts) used =
            (t.1, d, r) :: greedyLoop sim compare ts (d :: used) by
          simp only [greedyLoop, heq]]
        rw [List.map_cons]
        obtain ⟨ihmem, ihnd⟩ := ih (d :: used)
        constructor
        · intro j hj
          rcases List.mem_cons.mp hj with hjd | hjm
          · subst hjd; exact ⟨hnu, hd⟩
          · obtain ⟨hju, hjl⟩ := ihmem j hjm
            exact ⟨fun hm => hju (List.mem_cons_of_mem d hm), hjl⟩
        · refine List.nodup_cons.mpr ⟨fun hdm => ?_, ihnd⟩
          exact (ihmem d hdm).1 (List.mem_cons_self d used)

theorem getD_fst : ∀ (l : List (Str × Str)) (j : Nat), j < l.length →
    (l.getD j ([], [])).1 = (l.map Prod.fst).getD j []
  | [], j, h => absurd h (by simp)
  | x :: xs, 0, _ => rfl
  | x :: xs, j + 1, h => by
      rw [List.getD_cons_succ, List.map_cons, List.getD_cons_succ]
      exact getD_fst xs j (by simpa using h)

theorem nodup_keys_of_js (compare : List (Str × Str))
    (hc : (compare.map Prod.fst).Nodup) (js : List Nat) (hjs : js.Nodup)
    (hlt : ∀ j ∈ js, j < compare.length) :
    (js.map (fun j => (compare.getD j ([], [])).1)).Nodup := by
  refine List.Nodup.map_on ?_ hjs
  intro x hx y hy hxy
  have hxl : x < compare.length := hlt x hx
  have hyl : y < compare.length := hlt y hy
  have hxl' : x < (compare.map Prod.fst).length := by simpa using hxl
  have hyl' : y < (compare.map Prod.fst).length := by simpa using hyl
  rw [getD_fst compare x hxl, getD_fst compare y hyl,
    List.getD_eq_getElem (compare.map Prod.fst) [] hxl',
    List.getD_eq_getElem (compare.map Prod.fst) [] hyl'] at hxy
  exact (List.Nodup.getElem_inj_iff hc).mp hxy

/-- C6: matching exclusivity and determinism — with distinct clause
numbers on both sides (always true of Python dict keys), no benchmark
clause appears in more than one matched pair, no comparison clause is
consumed by more than one matched pair (across the label-equality phase
and the similarity phase, only one of which ever produces pairs), and the
matcher is a pure function, so re-running it on the same clause lists
yields the same assignment. -/
theorem C6_exclusive_deterministic :
    ∀ (sim : Str → Str → ℚ) (target compare : List (Str × Str)),
    (target.map Prod.fst).Nodup → (compare.map Prod.fst).Nodup →
    ((matchedPairs sim target compare).map Prod.fst).Nodup ∧
    ((matchedPairs sim target compare).map Prod.snd).Nodup ∧
    matchedPairs sim target compare = matchedPairs sim target compare := by
  intro sim target compare ht hc
  have haN : (phaseA target compare).Nodup :=
    List.Nodup.sublist (List.filter_sublist (target.map Prod.fst)) ht
  by_cases hA : phaseA target compare = []
  · have hm : matchedPairs sim target compare =
        (greedyLoop sim compare target []).map
          (fun tjr => (tjr.1, (compare.getD tjr.2.1 ([], [])).1)) := by
      simp [matchedPairs, hA]
    refine ⟨?_, ?_, rfl⟩
    · rw [hm, List.map_map]
      exact List.Nodup.sublist (greedyLoop_fst_sublist sim compare target []) ht
    · rw [hm, List.map_map]
      have hjs := greedyLoop_js sim compare target []
      have h2 := nodup_keys_of_js compare hc
        ((greedyLoop sim compare target []).map (fun x => x.2.1)) hjs.2
        (fun j hj => (hjs.1 j hj).2)
      rw [List.map_map] at h2
      exact h2
  · have hm : matchedPairs sim target compare =
        (phaseA target compare).map (fun n => (n, n)) := by
      simp [matchedPairs, hA]
    have hid1 : (Prod.fst ∘ fun n : Str => (n, n)) = id := rfl
    have hid2 : (Prod.snd ∘ fun n : Str => (n, n)) = id := rfl
    refine ⟨?_, ?_, rfl⟩
    · rw [hm, List.map_map, hid1, List.map_id]
      exact haN
    · rw [hm, List.map_map, hid2, List.map_id]
      exact haN

/-- C6 witness at a concrete pair of clause dicts with distinct keys. -/
theorem C6_witness :
    ((tC8.map Prod.fst).Nodup ∧ (cC8.map Prod.fst).Nodup) ∧
    (((matchedPairs simIndicator tC8 cC8).map Prod.fst).Nodup ∧
     ((matchedPairs simIndicator tC8 cC8).map Prod.snd).Nodup ∧
     matchedPairs simIndicator tC8 cC8 = matchedPairs simIndicator tC8 cC8) :=
  ⟨⟨by decide, by decide⟩,
   C6_exclusive_deterministic simIndicator tC8 cC8 (by decide) (by decide)⟩

/-! ## Judgment-loop lemmas (claims C2, C3, C8) -/

/-- Characterization of the judgment loop: every matched pair produces
exactly one collaborator call, in order (so a failure at pair `i` does not
stop pairs `i+1..n`, and nothing is retried); a pair whose call fails
appears in NEITHER result dict; a successful pair is filed under compliant
or non-compliant according to the 合规-prefix test on its stripped
response. -/
theorem judgeLoopT_spec (api : Str → Option Str) (target compare : List (Str × Str)) :
    ∀ (pairs : List (Str × Str)) (comp0 noncomp0 : List (Str × JudgeEntry)),
    (∀ p ∈ pairs, p.1 ∉ comp0.map Prod.fst ∧ p.1 ∉ noncomp0.map Prod.fst) →
    (pairs.map Prod.fst).Nodup →
    judgeLoopT api target compare pairs comp0 noncomp0 =
      (pairs.map (judgePrompt target compare),
       comp0 ++ pairs.filterMap (judgedAs api target compare true),
       noncomp0 ++ pairs.filterMap (judgedAs api target compare false)) := by
  intro pairs
  induction pairs with
  | nil => intro comp0 noncomp0 _ _; simp [judgeLoopT]
  | cons phead rest ih =>
      obtain ⟨tn, cn⟩ := phead
      intro comp0 noncomp0 hfresh hnd
      have hnd' : (rest.map Prod.fst).Nodup := (List.nodup_cons.mp (by simpa using hnd)).2
      have htn : tn ∉ rest.map Prod.fst := (List.nodup_cons.mp (by simpa using hnd)).1
      have hfresh' : ∀ q ∈ rest, q.1 ∉ comp0.map Prod.fst ∧ q.1 ∉ noncomp0.map Prod.fst :=
        fun q hq => hfresh q (List.mem_cons_of_mem _ hq)
      have hne : ∀ q ∈ rest, ¬ q.1 = tn := by
        intro q hq heq
        exact htn (heq ▸ List.mem_map_of_mem Prod.fst hq)
      have hfc : tn ∉ comp0.map Prod.fst := (hfresh (tn, cn) (List.mem_cons_self _ _)).1
      have hfn : tn ∉ noncomp0.map Prod.fst := (hfresh (tn, cn) (List.mem_cons_self _ _)).2
      cases hapi : api (buildPrompt tn cn ((dictGet target tn).getD [])
          ((dictGet compare cn).getD [])) with
      | none =>
          rw [show judgeLoopT api target compare ((tn, cn) :: rest) comp0 noncomp0 =
              (buildPrompt tn cn ((dictGet target tn).getD [])
                  ((dictGet compare cn).getD []) ::
                (judgeLoopT api target compare rest comp0 noncomp0).1,
               (judgeLoopT api target compare rest comp0 noncomp0).2) by
            simp only [judgeLoopT, hapi]]
          rw [ih comp0 noncomp0 hfresh' hnd']
          simp only [List.map_cons, List.filterMap_cons, judgedAs, judgePrompt, hapi]
      | some res =>
          cases hv : verdictCompliant res with
          | true =>
              rw [show judgeLoopT api target compare ((tn, cn) :: rest) comp0 noncomp0 =
                  (buildPrompt tn cn ((dictGet target tn).getD [])
                      ((dictGet compare cn).getD []) ::
                    (judgeLoopT api target compare rest
                      (dictInsert tn ⟨tn, cn, (dictGet target tn).getD [],
                        (dictGet compare cn).getD [], res, verdictCompliant res⟩ comp0)
                      noncomp0).1,
                   (judgeLoopT api target compare rest
                      (dictInsert tn ⟨tn, cn, (dictGet target tn).getD [],
                        (dictGet compare cn).getD [], res, verdictCompliant res⟩ comp0)
                      noncomp0).2) by
                simp only [judgeLoopT, hapi, hv, if_true]]
              rw [dictInsert_fresh tn _ comp0 hfc]
              have hIH := ih (comp0 ++ [(tn, JudgeEntry.mk tn cn ((dictGet target tn).getD [])
                  ((dictGet compare cn).getD []) res (verdictCompliant res))]) noncomp0
                (fun q hq => ⟨by
                    simp only [List.map_append, List.mem_append, List.map_cons, List.map_nil,
                      List.mem_singleton]
                    push_neg
                    exact ⟨(hfresh' q hq).1, hne q hq⟩,
                  (hfresh' q hq).2⟩) hnd'
              rw [hIH]
              simp only [List.map_cons, List.filterMap_cons, judgedAs, judgePrompt, hapi, hv,
                List.append_assoc, List.singleton_append]
              simp [hv]
          | false =>
              rw [show judgeLoopT api target compare ((tn, cn) :: rest) comp0 noncomp0 =
                  (buildPrompt tn cn ((dictGet target tn).getD [])
                      ((dictGet compare cn).getD []) ::
                    (judgeLoopT api target compare rest comp0
                      (dictInsert tn ⟨tn, cn, (dictGet target tn).getD [],
                        (dictGet compare cn).getD [], res, verdictCompliant res⟩ noncomp0)).1,
                   (judgeLoopT api target compare rest comp0
                      (dictInsert tn ⟨tn, cn, (dictGet target tn).getD [],
                        (dictGet compare cn).getD [], res, verdictCompliant res⟩ noncomp0)).2) by
                simp only [judgeLoopT, hapi, hv, Bool.false_eq_true, if_false]]
              rw [dictInsert_fresh tn _ noncomp0 hfn]
              have hIH := ih comp0 (noncomp0 ++ [(tn, JudgeEntry.mk tn cn
                  ((dictGet target tn).getD []) ((dictGet compare cn).getD []) res
                  (verdictCompliant res))])
                (fun q hq => ⟨(hfresh' q hq).1, by
                    simp only [List.map_append, List.mem_append, List.map_cons, List.map_nil,
                      List.mem_singleton]
                    push_neg
                    exact ⟨(hfresh' q hq).2, hne q hq⟩⟩) hnd'
              rw [hIH]
              simp only [List.map_cons, List.filterMap_cons, judgedAs, judgePrompt, hapi, hv,
                List.append_assoc, List.singleton_append]
              simp [hv]

/-- C2 amended: the judgment loop is total over matched pairs in the sense
that every pair gets exactly one collaborator call, in order, regardless of
earlier failures, and nothing is retried — but a pair whose call fails is
recorded NOWHERE (there is no unknown verdict and the error is not kept as
a rationale), and a successful pair is classified compliant exactly when
its stripped response starts with 合规; consequently the final result of
`analyze_clause_matches` contains only the compliant entries rather than
one entry per matched pair. -/
theorem C2_amended : ∀ (api : Str → Option Str) (target compare : List (Str × Str))
    (pairs : List (Str × Str)), (pairs.map Prod.fst).Nodup →
    judgeLoopT api target compare pairs [] [] =
      (pairs.map (judgePrompt target compare),
       pairs.filterMap (judgedAs api target compare true),
       pairs.filterMap (judgedAs api target compare false)) := by
  intro api target compare pairs hnd
  have h := judgeLoopT_spec api target compare pairs [] []
    (fun p _ => ⟨by simp, by simp⟩) hnd
  simpa using h

/-- C2 witness: one matched pair whose collaborator call fails is prompted
once and filed in neither result dict. -/
theorem C2_witness :
    (([(lc "1", lc "1")].map (Prod.fst : Str × Str → Str)).Nodup) ∧
    judgeLoopT (fun _ => none) tC2 cC2 [(lc "1", lc "1")] [] [] =
      ([(lc "1", lc "1")].map (judgePrompt tC2 cC2),
       [(lc "1", lc "1")].filterMap (judgedAs (fun _ => none) tC2 cC2 true),
       [(lc "1", lc "1")].filterMap (judgedAs (fun _ => none) tC2 cC2 false)) :=
  ⟨by decide, C2_amended (fun _ => none) tC2 cC2 [(lc "1", lc "1")] (by decide)⟩

theorem judgeLoopT_trace_len (api : Str → Option Str) (target compare : List (Str × Str)) :
    ∀ (pairs : List (Str × Str)) (comp0 noncomp0 : List (Str × JudgeEntry)),
    (judgeLoopT api target compare pairs comp0 noncomp0).1.length = pairs.length := by
  intro pairs
  induction pairs with
  | nil => intro c n; rfl
  | cons phead rest ih =>
      intro c n
      obtain ⟨tn, cn⟩ := phead
      cases hapi : api (buildPrompt tn cn ((dictGet target tn).getD [])
          ((dictGet compare cn).getD [])) with
      | none => simp [judgeLoopT, hapi, ih]
      | some res =>
          cases hv : verdictCompliant res
          · simp [judgeLoopT, hapi, hv, ih]
          · simp [judgeLoopT, hapi, hv, ih]

/-- C3 amended: there is NO cap on judgment-collaborator invocations: a
run over `n` matched pairs makes `n` judgment calls plus one summary call,
whatever `n` is; the cap of 50 only truncates the returned report, which
keeps the first 50 COMPLIANT entries and drops everything beyond them. -/
theorem C3_amended : ∀ (sim : Str → Str → ℚ) (api : Str → Option Str)
    (target compare : List (Str × Str)) (tr : List Str)
    (fin : List (Str × JudgeEntry)) (s : Str) (nc nm : Nat),
    analyzeT sim api target compare = some (tr, fin, s, nc, nm) →
    matchedPairs sim target compare ≠ [] →
    (tr.length = (matchedPairs sim target compare).length + 1 ∧
     fin = (judgeLoopT api target compare
       (matchedPairs sim target compare) [] []).2.1.take 50) := by
  intro sim api target compare tr fin s nc nm h hne
  unfold analyzeT at h
  by_cases h0 : target = [] ∨ compare = []
  · rw [if_pos h0] at h
    cases h
  · rw [if_neg h0] at h
    simp only [if_neg hne] at h
    injection h with h
    simp only [Prod.mk.injEq] at h
    obtain ⟨rfl, rfl, _, _, _⟩ := h
    refine ⟨?_, rfl⟩
    rw [List.length_append, judgeLoopT_trace_len]
    rfl

set_option maxRecDepth 16000 in
/-- C3 witness at a one-pair run with a failing collaborator: 2 calls for
1 matched pair, and the report is the (empty) compliant list. -/
theorem C3_witness :
    (analyzeT simIndicator (fun _ => none) tC2 cC2 =
      some ([judgePrompt tC2 cC2 (lc "1", lc "1"), buildSummaryPrompt [] 1 0],
        ([] : List (Str × JudgeEntry)), lc "无法生成总结，请检查API配置。", 0, 1) ∧
     matchedPairs simIndicator tC2 cC2 ≠ []) ∧
    (([judgePrompt tC2 cC2 (lc "1", lc "1"), buildSummaryPrompt [] 1 0] : List Str).length =
        (matchedPairs simIndicator tC2 cC2).length + 1 ∧
     ([] : List (Str × JudgeEntry)) =
       (judgeLoopT (fun _ => none) tC2 cC2
         (matchedPairs simIndicator tC2 cC2) [] []).2.1.take 50) :=
  ⟨⟨by decide, by decide⟩,
   C3_amended simIndicator (fun _ => none) tC2 cC2
     [judgePrompt tC2 cC2 (lc "1", lc "1"), buildSummaryPrompt [] 1 0]
     [] (lc "无法生成总结，请检查API配置。") 0 1 (by decide) (by decide)⟩

/-! ## Report-assembly lemmas (claim C8) -/

theorem filter_isH2_paras (l : List Str) : (l.map DocItem.para).filter isH2 = [] := by
  induction l with
  | nil => rfl
  | cons a l ih => simp only [List.map_cons, List.filter_cons, isH2]; exact ih

theorem filter_section (e : JudgeEntry) : (pairSection e).filter isH2 = [secHeading e] := by
  unfold pairSection secHeading
  rw [List.filter_append, filter_isH2_paras, List.append_nil]
  rfl

theorem filter_flatten_sections (matched : List (Str × JudgeEntry)) :
    ((matched.map (fun kv => pairSection kv.2)).flatten).filter isH2 =
      matched.map (fun kv => secHeading kv.2) := by
  induction matched with
  | nil => rfl
  | cons m ms ih =>
      simp only [List.map_cons, List.flatten_cons, List.filter_append, filter_section, ih,
        List.singleton_append]

/-- C8 amended: the assembler includes one section per entry given to it,
in the entries' (benchmark-ordinal) order; the report states the
total-matched and compliant counts it is given and the number of entries it
holds — but no non-compliant count exists anywhere in the pipeline (the
non-compliant dict is discarded before assembly, see the counterexample) —
and assembly is a pure function, so re-running it yields an identical
document. -/
theorem C8_amended : ∀ (matched : List (Str × JudgeEntry)) (summary tf cf : Str)
    (nc nm : Nat) (date : Str),
    (generate_word_document matched summary tf cf nc nm date).filter isH2 =
      matched.map (fun kv => secHeading kv.2) ∧
    DocItem.para (lc "总匹配条款数: " ++ lc (Nat.repr nm)) ∈
      generate_word_document matched summary tf cf nc nm date ∧
    DocItem.para (lc "合规条款数: " ++ lc (Nat.repr nc)) ∈
      generate_word_document matched summary tf cf nc nm date ∧
    generate_word_document matched summary tf cf nc nm date =
      generate_word_document matched summary tf cf nc nm date := by
  intro matched summary tf cf nc nm date
  refine ⟨?_, ?_, ?_, rfl⟩
  · unfold generate_word_document
    rw [List.filter_append, List.filter_append, List.filter_append,
      filter_isH2_paras, filter_flatten_sections]
    rfl
  · unfold generate_word_document
    refine List.mem_append_left _ (List.mem_append_left _ (List.mem_append_left _ ?_))
    simp
  · unfold generate_word_document
    refine List.mem_append_left _ (List.mem_append_left _ (List.mem_append_left _ ?_))
    simp

set_option maxRecDepth 16000 in
/-- C8 counterexample: two runs over the same clause dicts — one where
pair 2 is judged non-compliant, one where pair 2's collaborator call fails
— produce byte-identical reports, although their non-compliant counts are
1 and 0.  The report therefore does not count non-compliant pairs: they
are discarded before assembly, not aggregated. -/
theorem C8_counterexample :
    runReport api1C8 = runReport api2C8 ∧
    (judgeLoopT api1C8 tC8 cC8 (matchedPairs simIndicator tC8 cC8) [] []).2.2.length = 1 ∧
    (judgeLoopT api2C8 tC8 cC8 (matchedPairs simIndicator tC8 cC8) [] []).2.2.length = 0 :=
  ⟨by decide, by decide, by decide⟩
